import Mathlib

/-! mackerel-client-go: the host operations of `hosts.go`.

A shallow embedding of `hosts.go` (host helpers, the query built by `FindHosts`, the
status and decoding paths of the host operations) together with the parts of Go's
standard library the code calls (`net/url`: `Values`, `QueryEscape`; `encoding/json`:
decoding of the response envelopes), and the properties of the specification proved
about them.

Conventions of the embedding.

* A Go `string` is an arbitrary byte sequence: `GoString = List (Fin 256)`.
* A Go slice that is only measured with `len` and ranged over is the list of its
  elements (the nil slice and the empty slice are both `[]`). Where a function may
  return a nil slice, map or pointer, the result type is an `Option` and `none` is nil.
* A Go `map` is a list of entries with pairwise distinct keys; the order of the list is
  the order in which `range` visits the entries, which Go leaves unspecified.
* A Go `(T, error)` result of an operation of `hosts.go` is a pair whose second
  component is `Option GoError` (`none` is the nil error).
* The body of a response is what `encoding/json` scans it to: a JSON value, or the
  syntax error of a text that is not well-formed JSON.
-/

namespace Mackerel

/-! ## Go strings -/

/-- One byte of a Go string. -/
abbrev Byte := Fin 256

/-- Go `string`: a sequence of bytes. -/
abbrev GoString := List Byte

/-- The byte of an ASCII character. -/
def byteOf (c : Char) : Byte := Fin.ofNat c.toNat

/-- The Go string literal with the given ASCII text. -/
def lit (s : String) : GoString := s.toList.map byteOf

/-! ## `net/url`: query escaping -/

/-- Go `url.shouldEscape(c, encodeQueryComponent)`: every byte is escaped except the
unreserved ones (ASCII letters, digits, `-`, `_`, `.`, `~`). -/
def shouldEscape (c : Byte) : Bool :=
  if (97 ≤ c.val ∧ c.val ≤ 122) ∨ (65 ≤ c.val ∧ c.val ≤ 90) ∨ (48 ≤ c.val ∧ c.val ≤ 57) then
    false
  else if c.val = 45 ∨ c.val = 95 ∨ c.val = 46 ∨ c.val = 126 then
    false
  else
    true

/-- Go `upperhex[i]` for `upperhex = "0123456789ABCDEF"` (called with `i < 16`). -/
def upperhex (i : Nat) : Byte :=
  if i < 10 then Fin.ofNat (48 + i) else Fin.ofNat (55 + i)

/-- Go `url.QueryEscape` (`escape(s, encodeQueryComponent)`): a space becomes `+`, a byte
to be escaped becomes `%XY` with `X = upperhex[c>>4]`, `Y = upperhex[c&15]`, every other
byte is copied. -/
def QueryEscape : GoString → GoString
  | [] => []
  | c :: s =>
    if c.val = 32 then (43 : Byte) :: QueryEscape s
    else if shouldEscape c then
      (37 : Byte) :: upperhex (c.val / 16) :: upperhex (c.val % 16) :: QueryEscape s
    else c :: QueryEscape s

/-! ## `net/url`: `Values` -/

/-- Go `url.Values`, a `map[string][]string`. -/
abbrev Values := List (GoString × List GoString)

/-- Go map read `v[key]`: the stored slice, or nil (`[]`) when the key is absent. -/
def Values.get (v : Values) (key : GoString) : List GoString :=
  match v with
  | [] => []
  | (k, vs) :: rest => if k = key then vs else Values.get rest key

/-- Go map write `v[key] = vs`. -/
def Values.put (v : Values) (key : GoString) (vs : List GoString) : Values :=
  match v with
  | [] => [(key, vs)]
  | (k, ws) :: rest => if k = key then (k, vs) :: rest else (k, ws) :: Values.put rest key vs

/-- Go `Values.Set`: `v[key] = []string{value}`. -/
def Values.Set (v : Values) (key value : GoString) : Values :=
  v.put key [value]

/-- Go `Values.Add`: `v[key] = append(v[key], value)`. -/
def Values.Add (v : Values) (key value : GoString) : Values :=
  v.put key (v.get key ++ [value])

/-- Byte-wise lexicographic `a <= b` on Go strings (the order of `sort.Strings`). -/
def strLe : GoString → GoString → Bool
  | [], _ => true
  | _ :: _, [] => false
  | a :: as, b :: bs => if a.val < b.val then true else if b.val < a.val then false else strLe as bs

/-- Insertion of a key into a sorted key list. -/
def insertKey (k : GoString) : List GoString → List GoString
  | [] => [k]
  | x :: xs => if strLe k x then k :: x :: xs else x :: insertKey k xs

/-- Go `sort.Strings(keys)`. -/
def sortStrings : List GoString → List GoString
  | [] => []
  | k :: ks => insertKey k (sortStrings ks)

/-- The inner loop body of `Values.Encode`: writes `&` when the buffer is not empty,
then `keyEscaped=QueryEscape(value)`. -/
def writePair (keyEscaped : GoString) (buf : GoString) (value : GoString) : GoString :=
  (if buf.length > 0 then buf ++ [(38 : Byte)] else buf) ++ keyEscaped ++ [(61 : Byte)]
    ++ QueryEscape value

/-- Go `Values.Encode`: the empty string for an empty map; otherwise the keys are sorted,
and for each key, in that order, each of its values is written as `key=value`, the pairs
separated by `&`. -/
def Values.Encode (v : Values) : GoString :=
  if v.length = 0 then []
  else
    (sortStrings (v.map Prod.fst)).foldl
      (fun buf k => (v.get k).foldl (writePair (QueryEscape k)) buf) []

/-! ## `hosts.go`: data -/

/-- Go `FindHostsParam`. -/
structure FindHostsParam where
  Service : GoString
  Roles : List GoString
  Name : GoString
  Statuses : List GoString
  deriving DecidableEq, Repr

/-- The `url.Values` that `FindHosts` fills from its parameter (`hosts.go`, the lines
before the request is built). -/
def findHostsValues (param : FindHostsParam) : Values :=
  let v : Values := []
  let v := if param.Service ≠ [] then v.Set (lit "service") param.Service else v
  let v := if param.Roles.length ≥ 1 then
      param.Roles.foldl (fun v role => v.Add (lit "role") role) v
    else v
  let v := if param.Name ≠ [] then v.Set (lit "name") param.Name else v
  let v := if param.Statuses.length ≥ 1 then
      param.Statuses.foldl (fun v status => v.Add (lit "status") status) v
    else v
  v

/-- The query string of the request `FindHosts` sends: `v.Encode()`. -/
def findHostsQuery (param : FindHostsParam) : GoString :=
  (findHostsValues param).Encode

/-! ## Reading a query string back

The claims about the query string speak of the key-value pairs it contains. The reader
below is the usual reading of a form-encoded query (that of Go's `url.ParseQuery`): the
string is cut at every `&`, empty segments are skipped, each segment is cut at its first
`=`, and key and value are unescaped. -/

/-- The value of a hexadecimal digit (Go `unhex`), `none` for any other byte. -/
def unhex (c : Byte) : Option Nat :=
  if 48 ≤ c.val ∧ c.val ≤ 57 then some (c.val - 48)
  else if 97 ≤ c.val ∧ c.val ≤ 102 then some (c.val - 97 + 10)
  else if 65 ≤ c.val ∧ c.val ≤ 70 then some (c.val - 65 + 10)
  else none

/-- Go `url.QueryUnescape`: `+` is a space, `%XY` is the byte with hexadecimal digits
`X`, `Y`; `none` when a `%` is not followed by two hexadecimal digits. -/
def QueryUnescape : GoString → Option GoString
  | [] => some []
  | c :: s =>
    if c.val = 37 then
      match s with
      | h :: l :: rest =>
        match unhex h, unhex l, QueryUnescape rest with
        | some a, some b, some r => some (Fin.ofNat (a * 16 + b) :: r)
        | _, _, _ => none
      | _ => none
    else if c.val = 43 then (QueryUnescape s).map (fun r => (32 : Byte) :: r)
    else (QueryUnescape s).map (fun r => c :: r)

/-- Go `strings.Cut(seg, "=")`: the text before the first `=` and the text after it
(all of `seg` and the empty string when there is no `=`). -/
def cutEq (seg : GoString) : GoString × GoString :=
  (seg.takeWhile (fun b => b ≠ (61 : Byte)), (seg.dropWhile (fun b => b ≠ (61 : Byte))).drop 1)

/-- The key-value pair written in one segment of a query string. -/
def readSegment (seg : GoString) : Option (GoString × GoString) :=
  match QueryUnescape (cutEq seg).1, QueryUnescape (cutEq seg).2 with
  | some k, some v => some (k, v)
  | _, _ => none

/-- The pairs of a list of segments, `none` when one of them is malformed. -/
def readSegments : List GoString → Option (List (GoString × GoString))
  | [] => some []
  | seg :: segs =>
    match readSegment seg, readSegments segs with
    | some p, some ps => some (p :: ps)
    | _, _ => none

/-- The key-value pairs contained in a query string, left to right. -/
def queryPairs (q : GoString) : Option (List (GoString × GoString)) :=
  readSegments ((q.splitOn (38 : Byte)).filter (fun seg => seg ≠ []))

/-- The values, left to right, of the pairs with the given key. -/
def valuesOf (key : GoString) (ps : List (GoString × GoString)) : List GoString :=
  (ps.filter (fun p => p.1 = key)).map Prod.snd

/-- The text `key=value` of one pair, both sides escaped. -/
def segmentOf (p : GoString × GoString) : GoString :=
  QueryEscape p.1 ++ [(61 : Byte)] ++ QueryEscape p.2

/-- The pairs that `FindHosts` puts in the query, in the order `Values.Encode` writes
them (keys in sorted order: `name`, `role`, `service`, `status`). -/
def findHostsPairs (param : FindHostsParam) : List (GoString × GoString) :=
  (if param.Name ≠ [] then [(lit "name", param.Name)] else [])
    ++ param.Roles.map (fun r => (lit "role", r))
    ++ (if param.Service ≠ [] then [(lit "service", param.Service)] else [])
    ++ param.Statuses.map (fun s => (lit "status", s))

/-- The query text of a list of pairs: their segments separated by `&`. -/
def joinPairs (ps : List (GoString × GoString)) : GoString :=
  [(38 : Byte)].intercalate (ps.map segmentOf)

/-- One step of the writer of `Values.Encode`, on a pair. -/
def writeStep (buf : GoString) (p : GoString × GoString) : GoString :=
  writePair (QueryEscape p.1) buf p.2

/-- The pairs of a `Values`, keys in sorted order, the values of a key in their order. -/
def Values.sortedPairs (v : Values) : List (GoString × GoString) :=
  (sortStrings (v.map Prod.fst)).flatMap (fun k => (v.get k).map (fun x => (k, x)))

/-! ## Errors, JSON values, HTTP responses -/

/-- Go `error` values, as far as the code makes or forwards them. -/
inductive GoError where
  /-- The value of `errors.New(text)`. -/
  | errorsNew (text : String)
  /-- A `*json.UnmarshalTypeError`: a JSON value of kind `value` met a Go type that cannot
  hold it. -/
  | unmarshalType (value : String)
  /-- Any other error value (transport failure, read failure, JSON syntax error, ...). -/
  | other (id : Nat)
  deriving DecidableEq, Repr

/-- A JSON value as `encoding/json` scans it: strings and object keys are unquoted, a
number is kept as its literal text. -/
inductive JSON where
  | null
  | bool (b : Bool)
  | num (literal : GoString)
  | str (s : GoString)
  | arr (elems : List JSON)
  | obj (members : List (GoString × JSON))

/-- The bytes of a response body, as `json.Unmarshal` sees them. -/
inductive Document where
  /-- The bytes are not well-formed JSON: `json.Unmarshal` rejects them with this syntax
  error before it stores anything. -/
  | malformed (e : GoError)
  /-- The bytes are the JSON text of this value. -/
  | json (j : JSON)

/-- Go `*http.Response`, as far as the code reads it: the status code, and what
`ioutil.ReadAll(resp.Body)` returns (the bytes of the body, or a read error). -/
structure Response where
  StatusCode : Int
  Body : Except GoError Document

/-- Go `*http.Request`: method and URL. -/
structure Request where
  Method : GoString
  URL : GoString
  deriving DecidableEq, Repr

/-! ## `hosts.go`: the host types -/

/-- Go `Interface`. -/
structure Interface where
  Name : GoString
  IPAddress : GoString
  MacAddress : GoString
  deriving DecidableEq, Repr

/-- Go `Roles`, a `map[string][]string`. -/
abbrev Roles := List (GoString × List GoString)

/-- Go `HostMeta`; a value of type `interface{}` is the JSON value it holds. -/
structure HostMeta where
  AgentRevision : GoString
  AgentVersion : GoString
  BlockDevice : List (GoString × List (GoString × JSON))
  CPU : List (List (GoString × JSON))
  Filesystem : List (GoString × JSON)
  Kernel : List (GoString × GoString)
  Memory : List (GoString × GoString)

/-- Go `Host`. -/
structure Host where
  ID : GoString
  Name : GoString
  /-- Go field `Type` (a reserved word here). -/
  Type_ : GoString
  Status : GoString
  Memo : GoString
  Roles : Roles
  RoleFullnames : List GoString
  IsRetired : Bool
  CreatedAt : Int
  Meta : HostMeta
  Interfaces : List Interface

/-- Go `CreateHostParam`. -/
structure CreateHostParam where
  Name : GoString
  Meta : HostMeta
  Interfaces : List Interface
  RoleFullnames : List GoString

/-- Go `UpdateHostParam`, declared as `type UpdateHostParam CreateHostParam`. -/
abbrev UpdateHostParam := CreateHostParam

/-- The values handed to `PostJSON` and `PutJSON` as `payload interface{}`. -/
inductive Payload where
  | hostParam (p : CreateHostParam)
  | stringMap (m : List (GoString × GoString))
  | text (s : GoString)

/-! ## Collaborators

`hosts.go` calls methods of `Client` that live in another file of the package (`urlFor`,
`Request`, `PostJSON`, `PutJSON`) and the standard library (`http.NewRequest`,
`encoding/json`). They are parameters of the embedding.

A Go result `(x, err)` of a collaborator is an `Except`: `error err` when `err != nil`
(the code then returns `err` and looks at nothing else), `ok x` when `err == nil`. -/

/-- The methods of `*Client` used by `hosts.go`. -/
structure Client where
  /-- Go `c.urlFor(path).String()`. -/
  urlFor : GoString → GoString
  /-- Go `c.Request(req)`. -/
  Request : Request → Except GoError Response
  /-- Go `c.PostJSON(path, payload)`. -/
  PostJSON : GoString → Payload → Except GoError Response
  /-- Go `c.PutJSON(path, payload)`. -/
  PutJSON : GoString → Payload → Except GoError Response

/-- The standard library functions whose inner working is left open. -/
structure Lib where
  /-- Go `http.NewRequest(method, url, nil)`. -/
  NewRequest : GoString → GoString → Except GoError Request
  /-- The case folding under which `encoding/json` matches an object key with a field
  name when they are not equal (`foldName`). -/
  foldName : GoString → GoString
  /-- How `encoding/json` stores a JSON value in a field of type `*Host`: the new field
  value and the type error met, if any. -/
  storeHost : JSON → Option Host → Option Host × Option GoError
  /-- How `encoding/json` stores a JSON value in a field of type `[]*Host`. -/
  storeHosts : JSON → Option (List (Option Host)) → Option (List (Option Host)) × Option GoError

/-! ## `encoding/json`: decoding into a struct with one field -/

/-- Go `decodeState.saveError`: only the first error is kept. -/
def saveError (saved e : Option GoError) : Option GoError :=
  match saved with
  | none => e
  | some s => some s

/-- Whether an object key selects the field with JSON name `name`: it equals the name, or
it has the same case folding. -/
def matchesField (fold : GoString → GoString) (name key : GoString) : Bool :=
  key = name || fold key = fold name

/-- The object loop of `decodeState.object` for a struct with the single field `name`:
each member whose key selects the field is stored in it, in order, the other members are
skipped; a type error met on the way is saved and decoding goes on. -/
def decodeMembers {T : Type} (fold : GoString → GoString) (name : GoString)
    (store : JSON → T → T × Option GoError) :
    List (GoString × JSON) → T × Option GoError → T × Option GoError
  | [], st => st
  | (k, v) :: rest, (data, saved) =>
    if matchesField fold name k then
      decodeMembers fold name store rest ((store v data).1, saveError saved (store v data).2)
    else
      decodeMembers fold name store rest (data, saved)

/-- The JSON kind named in an `UnmarshalTypeError`. -/
def JSON.kind : JSON → String
  | .null => "null"
  | .bool _ => "bool"
  | .num _ => "number"
  | .str _ => "string"
  | .arr _ => "array"
  | .obj _ => "object"

/-- Go `json.Unmarshal(body, &data)` on well-formed JSON, for `data` a struct with the
single field `name`: `null` stores nothing, an object is decoded member by member, any
other value is a type error. Returns `data` after the call and the error. -/
def unmarshalValue {T : Type} (fold : GoString → GoString) (name : GoString)
    (store : JSON → T → T × Option GoError) (j : JSON) (data : T) : T × Option GoError :=
  match j with
  | .null => (data, none)
  | .obj members => decodeMembers fold name store members (data, none)
  | other => (data, some (GoError.unmarshalType other.kind))

/-- How `encoding/json` stores a JSON value in a field of type `string`: a string is
stored, `null` is ignored, any other value is a type error that leaves the field. -/
def storeString (j : JSON) (cur : GoString) : GoString × Option GoError :=
  match j with
  | .str s => (s, none)
  | .null => (cur, none)
  | other => (cur, some (GoError.unmarshalType other.kind))

/-- Go `json.Unmarshal(body, &data)` for `data` a struct with the single field `name`:
`data` after the call, and the error returned. -/
def Unmarshal {T : Type} (fold : GoString → GoString) (name : GoString)
    (store : JSON → T → T × Option GoError) (body : Document) (data : T) :
    T × Option GoError :=
  match body with
  | .malformed e => (data, some e)
  | .json j => unmarshalValue fold name store j data

/-! ## `hosts.go`: helpers of `Host` -/

/-- Go `append(s, x)` on a slice that may be nil. -/
def goAppend {α : Type} (s : Option (List α)) (x : α) : Option (List α) :=
  match s with
  | none => some [x]
  | some l => some (l ++ [x])

/-- Go `strings.Join(elems, sep)`. -/
def stringsJoin (elems : List GoString) (sep : GoString) : GoString :=
  sep.intercalate elems

/-- Go `(*Host).GetRoleFullnames`. The entries of `h.Roles` are visited in the order of
the list. -/
def GetRoleFullnames (h : Host) : Option (List GoString) :=
  if h.Roles.length < 1 then none
  else
    h.Roles.foldl
      (fun fullnames entry =>
        entry.2.foldl
          (fun fullnames role => goAppend fullnames (stringsJoin [entry.1, role] (lit ":")))
          fullnames)
      none

/-- Go map write `m[key] = value` on a `map[string]string`. -/
def mapPut (m : List (GoString × GoString)) (key value : GoString) :
    List (GoString × GoString) :=
  match m with
  | [] => [(key, value)]
  | (k, w) :: rest => if k = key then (k, value) :: rest else (k, w) :: mapPut rest key value

/-- Go map read `v, ok := m[key]` on a `map[string]string`. -/
def mapGet (m : List (GoString × GoString)) (key : GoString) : Option GoString :=
  match m with
  | [] => none
  | (k, w) :: rest => if k = key then some w else mapGet rest key

/-- Go `(*Host).IPAddresses`: the receiver after the call, and the map returned (`none`
is the nil map). -/
def IPAddresses (h : Host) : Host × Option (List (GoString × GoString)) :=
  if h.Interfaces.length < 1 then (h, none)
  else
    (h, some (h.Interfaces.foldl (fun ipAddresses iface =>
      mapPut ipAddresses iface.Name iface.IPAddress) []))

/-! ## `hosts.go`: the operations -/

/-- The error `errors.New("status code is not 200")`. -/
def statusNot200 : GoError := GoError.errorsNew "status code is not 200"

/-- Go `(*Client).FindHost`. -/
def FindHost (lib : Lib) (c : Client) (id : GoString) : Option Host × Option GoError :=
  match lib.NewRequest (lit "GET") (c.urlFor (lit "/api/v0/hosts/" ++ id)) with
  | .error err => (none, some err)
  | .ok req =>
    match c.Request req with
    | .error err => (none, some err)
    | .ok resp =>
      if resp.StatusCode ≠ 200 then (none, some (GoError.errorsNew "status code is not 200"))
      else
        match resp.Body with
        | .error err => (none, some err)
        | .ok body =>
          let data := Unmarshal lib.foldName (lit "host") lib.storeHost body none
          if data.2 ≠ none then (none, data.2) else (data.1, data.2)

/-- Go `(*Client).FindHosts`. -/
def FindHosts (lib : Lib) (c : Client) (param : FindHostsParam) :
    Option (List (Option Host)) × Option GoError :=
  let v := findHostsValues param
  match lib.NewRequest (lit "GET")
      (c.urlFor (lit "/api/v0/hosts.json") ++ lit "?" ++ v.Encode) with
  | .error err => (none, some err)
  | .ok req =>
    match c.Request req with
    | .error err => (none, some err)
    | .ok resp =>
      if resp.StatusCode ≠ 200 then (none, some (GoError.errorsNew "status code is not 200"))
      else
        match resp.Body with
        | .error err => (none, some err)
        | .ok body =>
          let data := Unmarshal lib.foldName (lit "hosts") lib.storeHosts body none
          if data.2 ≠ none then (none, data.2) else (data.1, data.2)

/-- Go `(*Client).CreateHost`. -/
def CreateHost (lib : Lib) (c : Client) (param : CreateHostParam) : GoString × Option GoError :=
  match c.PostJSON (lit "/api/v0/hosts") (Payload.hostParam param) with
  | .error err => ([], some err)
  | .ok resp =>
    match resp.Body with
    | .error err => ([], some err)
    | .ok body =>
      let data := Unmarshal lib.foldName (lit "id") storeString body []
      if data.2 ≠ none then ([], data.2) else (data.1, none)

/-- Go `(*Client).UpdateHost`. -/
def UpdateHost (lib : Lib) (c : Client) (hostID : GoString) (param : UpdateHostParam) :
    GoString × Option GoError :=
  match c.PutJSON (lit "/api/v0/hosts/" ++ hostID) (Payload.hostParam param) with
  | .error err => ([], some err)
  | .ok resp =>
    match resp.Body with
    | .error err => ([], some err)
    | .ok body =>
      let data := Unmarshal lib.foldName (lit "id") storeString body []
      if data.2 ≠ none then ([], data.2) else (data.1, none)

/-- Go `(*Client).UpdateHostStatus`. -/
def UpdateHostStatus (c : Client) (hostID : GoString) (status : GoString) : Option GoError :=
  match c.PostJSON (lit "/api/v0/hosts/" ++ hostID ++ lit "/status")
      (Payload.stringMap [(lit "status", status)]) with
  | .error err => some err
  | .ok _ => none

/-- Go `(*Client).RetireHost`. -/
def RetireHost (c : Client) (id : GoString) : Option GoError :=
  match c.PostJSON (lit "/api/v0/hosts/" ++ id ++ lit "/retire") (Payload.text (lit "\x7b\x7d")) with
  | .error err => some err
  | .ok resp =>
    if resp.StatusCode ≠ 200 then some (GoError.errorsNew "status code is not 200")
    else none

/-! ## Concrete collaborators, for evaluating the operations -/

/-- A host with every field at its zero value. -/
def zeroHost : Host :=
  { ID := [], Name := [], Type_ := [], Status := [], Memo := [], Roles := [],
    RoleFullnames := [], IsRetired := false, CreatedAt := 0,
    Meta := { AgentRevision := [], AgentVersion := [], BlockDevice := [], CPU := [],
              Filesystem := [], Kernel := [], Memory := [] },
    Interfaces := [] }

/-- ASCII upper-casing, the ASCII part of the case folding of `encoding/json`. -/
def asciiUpper (s : GoString) : GoString :=
  s.map (fun c => if 97 ≤ c.val ∧ c.val ≤ 122 then Fin.ofNat (c.val - 32) else c)

/-- A `Lib` to evaluate with: every request can be built, keys fold by ASCII
upper-casing, `null` stores nil, an object allocates a host (its members are not read
here), an array gives one nil entry per element, anything else is a type error. -/
def sampleLib : Lib where
  NewRequest := fun method url => Except.ok { Method := method, URL := url }
  foldName := asciiUpper
  storeHost := fun j cur =>
    match j with
    | .null => (none, none)
    | .obj _ => (some (cur.getD zeroHost), none)
    | other => (some (cur.getD zeroHost), some (GoError.unmarshalType other.kind))
  storeHosts := fun j cur =>
    match j with
    | .null => (none, none)
    | .arr elems => (some (elems.map (fun _ => none)), none)
    | other => (cur, some (GoError.unmarshalType other.kind))

/-- A `Client` whose every call is answered, without error, by the given response. -/
def answering (resp : Response) : Client where
  urlFor := fun path => lit "https://mackerel.io" ++ path
  Request := fun _ => Except.ok resp
  PostJSON := fun _ _ => Except.ok resp
  PutJSON := fun _ _ => Except.ok resp

/-- A `CreateHostParam` with every field at its zero value. -/
def zeroParam : CreateHostParam :=
  { Name := [], Meta := zeroHost.Meta, Interfaces := [], RoleFullnames := [] }

/-! ## Reading the results of the helpers -/

/-- Go `append(s, xs...)` on a slice that may be nil: with nothing to append the slice is
returned as it is. -/
def goAppendAll {α : Type} (s : Option (List α)) (xs : List α) : Option (List α) :=
  match xs with
  | [] => s
  | x :: rest => some (s.getD [] ++ x :: rest)

/-- The full names `service:role` of one entry of `Roles`, in the order of its roles. -/
def fullnamesOf (entry : GoString × List GoString) : List GoString :=
  entry.2.map (fun role => entry.1 ++ lit ":" ++ role)

/-- The IP address of the last interface of the list that has the given name. -/
def lastAddress (ifaces : List Interface) (name : GoString) : Option GoString :=
  (ifaces.reverse.find? (fun i => i.Name = name)).map (fun i => i.IPAddress)

/-! # Properties -/

/-! ## Lemmas: escaping -/

theorem unhex_upperhex (i : Nat) (hi : i < 16) : unhex (upperhex i) = some i := by
  interval_cases i <;> decide

theorem upperhex_ne (i : Nat) (hi : i < 16) :
    upperhex i ≠ (38 : Byte) ∧ upperhex i ≠ (61 : Byte) := by
  interval_cases i <;> decide

theorem byte_div_mod (c : Byte) : (Fin.ofNat (c.val / 16 * 16 + c.val % 16) : Byte) = c := by
  apply Fin.ext
  have h := c.isLt
  simp only [Fin.ofNat, Fin.val_mk]
  omega

theorem shouldEscape_false (c : Byte) (h : shouldEscape c = false) :
    c.val ≠ 37 ∧ c.val ≠ 43 ∧ c.val ≠ 38 ∧ c.val ≠ 61 := by
  unfold shouldEscape at h
  split at h
  · omega
  · split at h
    · omega
    · simp at h

theorem QueryUnescape_plus (s : GoString) :
    QueryUnescape ((43 : Byte) :: s) = (QueryUnescape s).map (fun r => (32 : Byte) :: r) := by
  cases s with
  | nil => rfl
  | cons h t => cases t <;> rfl

theorem QueryUnescape_percent (h l : Byte) (s : GoString) :
    QueryUnescape ((37 : Byte) :: h :: l :: s) =
      match unhex h, unhex l, QueryUnescape s with
      | some a, some b, some r => some (Fin.ofNat (a * 16 + b) :: r)
      | _, _, _ => none := rfl

theorem QueryUnescape_plain (c : Byte) (s : GoString) (h37 : c.val ≠ 37) (h43 : c.val ≠ 43) :
    QueryUnescape (c :: s) = (QueryUnescape s).map (fun r => c :: r) := by
  conv_lhs => unfold QueryUnescape
  simp only [h37, h43, if_false]

theorem QueryUnescape_QueryEscape (s : GoString) : QueryUnescape (QueryEscape s) = some s := by
  induction s with
  | nil => rfl
  | cons c s ih =>
    unfold QueryEscape
    by_cases h32 : c.val = 32
    · have hc : c = (32 : Byte) := Fin.ext h32
      simp only [h32, if_true]
      rw [QueryUnescape_plus, ih, hc]
      rfl
    · simp only [h32, if_false]
      cases hse : shouldEscape c with
      | true =>
        have h1 : c.val / 16 < 16 := by have := c.isLt; omega
        have h2 : c.val % 16 < 16 := by omega
        simp only [if_true]
        rw [QueryUnescape_percent, ih, unhex_upperhex _ h1, unhex_upperhex _ h2]
        simp only [byte_div_mod]
      | false =>
        obtain ⟨h37, h43, -, -⟩ := shouldEscape_false c hse
        simp only [Bool.false_eq_true, if_false]
        rw [QueryUnescape_plain c _ h37 h43, ih]
        rfl

theorem QueryEscape_clean (s : GoString) :
    ∀ b ∈ QueryEscape s, b ≠ (38 : Byte) ∧ b ≠ (61 : Byte) := by
  induction s with
  | nil => intro b hb; simp [QueryEscape] at hb
  | cons c s ih =>
    intro b hb
    unfold QueryEscape at hb
    by_cases h32 : c.val = 32
    · simp only [h32, if_true, List.mem_cons] at hb
      rcases hb with rfl | hb
      · decide
      · exact ih b hb
    · simp only [h32, if_false] at hb
      cases hse : shouldEscape c with
      | true =>
        have h1 : c.val / 16 < 16 := by have := c.isLt; omega
        have h2 : c.val % 16 < 16 := by omega
        simp only [hse, if_true, List.mem_cons] at hb
        rcases hb with rfl | rfl | rfl | hb
        · decide
        · exact upperhex_ne _ h1
        · exact upperhex_ne _ h2
        · exact ih b hb
      | false =>
        obtain ⟨-, -, h38, h61⟩ := shouldEscape_false c hse
        simp only [hse, Bool.false_eq_true, if_false, List.mem_cons] at hb
        rcases hb with rfl | hb
        · exact ⟨fun h => h38 (by rw [h]; rfl), fun h => h61 (by rw [h]; rfl)⟩
        · exact ih b hb

/-! ## Lemmas: reading back what was written -/

theorem cutEq_append (a b : GoString) (ha : ∀ x ∈ a, x ≠ (61 : Byte)) :
    cutEq (a ++ [(61 : Byte)] ++ b) = (a, b) := by
  induction a with
  | nil => simp [cutEq, List.takeWhile, List.dropWhile]
  | cons x a ih =>
    have hx : x ≠ (61 : Byte) := ha x (List.mem_cons_self _ _)
    have ih2 := ih (fun y hy => ha y (List.mem_cons_of_mem _ hy))
    simp only [cutEq, Prod.mk.injEq] at ih2
    simp only [cutEq, List.cons_append, List.takeWhile, List.dropWhile, hx, ne_eq,
      not_false_eq_true, decide_True, Prod.mk.injEq, List.cons.injEq, true_and]
    exact ih2

theorem readSegment_segmentOf (p : GoString × GoString) : readSegment (segmentOf p) = some p := by
  unfold readSegment segmentOf
  rw [cutEq_append _ _ (fun x hx => (QueryEscape_clean p.1 x hx).2)]
  simp [QueryUnescape_QueryEscape]

theorem readSegments_map (ps : List (GoString × GoString)) :
    readSegments (ps.map segmentOf) = some ps := by
  induction ps with
  | nil => rfl
  | cons p ps ih => simp [readSegments, readSegment_segmentOf, ih]

theorem segmentOf_clean (p : GoString × GoString) : (38 : Byte) ∉ segmentOf p := by
  intro h
  simp only [segmentOf, List.append_assoc, List.mem_append, List.mem_singleton] at h
  rcases h with h | h | h
  · exact (QueryEscape_clean p.1 _ h).1 rfl
  · exact absurd h (by decide)
  · exact (QueryEscape_clean p.2 _ h).1 rfl

theorem segmentOf_ne_nil (p : GoString × GoString) : segmentOf p ≠ [] := by
  simp [segmentOf]

theorem queryPairs_joinPairs (ps : List (GoString × GoString)) :
    queryPairs (joinPairs ps) = some ps := by
  cases ps with
  | nil => decide
  | cons p ps =>
    unfold queryPairs joinPairs
    rw [List.splitOn_intercalate]
    · have hf : ((p :: ps).map segmentOf).filter (fun seg => seg ≠ []) = (p :: ps).map segmentOf := by
        apply List.filter_eq_self.mpr
        intro seg hseg
        obtain ⟨q, -, rfl⟩ := List.mem_map.mp hseg
        simpa using segmentOf_ne_nil q
      rw [hf, readSegments_map]
    · intro seg hseg
      obtain ⟨q, -, rfl⟩ := List.mem_map.mp hseg
      exact segmentOf_clean q
    · simp

/-! ## Lemmas: `Values.Encode` in closed form -/

theorem foldl_writePair (k : GoString) (vs : List GoString) (buf : GoString) :
    vs.foldl (writePair (QueryEscape k)) buf = (vs.map (fun x => (k, x))).foldl writeStep buf := by
  induction vs generalizing buf with
  | nil => rfl
  | cons x vs ih => simp only [List.foldl, List.map, ih, writeStep]

theorem foldl_keys (v : Values) (keys : List GoString) (buf : GoString) :
    keys.foldl (fun buf k => (v.get k).foldl (writePair (QueryEscape k)) buf) buf =
      (keys.flatMap (fun k => (v.get k).map (fun x => (k, x)))).foldl writeStep buf := by
  induction keys generalizing buf with
  | nil => rfl
  | cons k keys ih =>
    rw [List.foldl_cons, ih, List.flatMap_cons, List.foldl_append, foldl_writePair]

theorem writeStep_nonempty (buf : GoString) (p : GoString × GoString) (h : buf ≠ []) :
    writeStep buf p = buf ++ ((38 : Byte) :: segmentOf p) := by
  have hl : buf.length > 0 := List.length_pos.mpr h
  simp [writeStep, writePair, hl, segmentOf]

theorem foldl_writeStep_nonempty (ps : List (GoString × GoString)) (buf : GoString)
    (h : buf ≠ []) :
    ps.foldl writeStep buf = buf ++ (ps.map (fun p => (38 : Byte) :: segmentOf p)).flatten := by
  induction ps generalizing buf with
  | nil => simp
  | cons p ps ih =>
    have h2 : writeStep buf p ≠ [] := by
      rw [writeStep_nonempty buf p h]; simp
    rw [List.foldl_cons, ih _ h2, writeStep_nonempty buf p h]
    simp only [List.map, List.flatten, List.append_assoc]

theorem intercalate_cons (sep x : GoString) (xs : List GoString) :
    sep.intercalate (x :: xs) = x ++ (xs.map (fun y => sep ++ y)).flatten := by
  induction xs generalizing x with
  | nil => simp [List.intercalate, List.intersperse]
  | cons y ys ih =>
    have h := ih y
    simp only [List.intercalate] at h
    simp only [List.intercalate, List.intersperse, List.flatten, List.map, List.append_assoc, h]

theorem foldl_writeStep_nil (ps : List (GoString × GoString)) :
    ps.foldl writeStep [] = joinPairs ps := by
  cases ps with
  | nil => rfl
  | cons p ps =>
    have h1 : writeStep [] p = segmentOf p := by
      simp [writeStep, writePair, segmentOf]
    simp only [List.foldl, h1, joinPairs, List.map]
    rw [foldl_writeStep_nonempty ps _ (segmentOf_ne_nil p), intercalate_cons]
    simp [List.map_map, Function.comp_def]

theorem Encode_eq (v : Values) : v.Encode = joinPairs v.sortedPairs := by
  unfold Values.Encode
  split
  · rename_i h
    have hv : v = [] := List.length_eq_zero.mp h
    subst hv
    rfl
  · rw [foldl_keys, foldl_writeStep_nil]
    rfl

/-! ## Lemmas: the values `FindHosts` builds -/

theorem get_put_same (v : Values) (k : GoString) (vs : List GoString) :
    (v.put k vs).get k = vs := by
  induction v with
  | nil => simp [Values.put, Values.get]
  | cons e v ih =>
    obtain ⟨k', ws⟩ := e
    by_cases h : k' = k
    · simp [Values.put, Values.get, h]
    · simp [Values.put, Values.get, h, ih]

theorem put_put (v : Values) (k : GoString) (vs ws : List GoString) :
    (v.put k vs).put k ws = v.put k ws := by
  induction v with
  | nil => simp [Values.put]
  | cons e v ih =>
    obtain ⟨k', us⟩ := e
    by_cases h : k' = k
    · simp [Values.put, h]
    · simp [Values.put, h, ih]

theorem foldl_Add (k : GoString) (r : GoString) (rs : List GoString) (v : Values) :
    (r :: rs).foldl (fun v x => v.Add k x) v = v.put k (v.get k ++ r :: rs) := by
  induction rs generalizing v r with
  | nil => rfl
  | cons r2 rs ih =>
    rw [List.foldl_cons, ih]
    simp only [Values.Add, get_put_same, put_put, List.append_assoc, List.singleton_append]

theorem foldl_Add_Add (k : GoString) (r : GoString) (rs : List GoString) (v : Values) :
    rs.foldl (fun v x => v.Add k x) (v.Add k r) = v.put k (v.get k ++ r :: rs) :=
  foldl_Add k r rs v

theorem lit_service : lit "service" = [115, 101, 114, 118, 105, 99, 101] := by decide
theorem lit_role : lit "role" = [114, 111, 108, 101] := by decide
theorem lit_name : lit "name" = [110, 97, 109, 101] := by decide
theorem lit_status : lit "status" = [115, 116, 97, 116, 117, 115] := by decide

theorem sortedPairs_findHostsValues (p : FindHostsParam) :
    (findHostsValues p).sortedPairs = findHostsPairs p := by
  obtain ⟨service, roles, name, statuses⟩ := p
  by_cases hs : service = [] <;> by_cases hn : name = [] <;>
    cases roles <;> cases statuses <;>
    simp [findHostsValues, findHostsPairs, Values.sortedPairs, hs, hn, foldl_Add_Add, Values.Set,
      Values.put, Values.get, lit_service, lit_role, lit_name, lit_status, sortStrings,
      insertKey, strLe]

theorem findHostsQuery_eq (p : FindHostsParam) :
    findHostsQuery p = joinPairs (findHostsPairs p) := by
  rw [findHostsQuery, Encode_eq, sortedPairs_findHostsValues]

theorem queryPairs_findHostsQuery (p : FindHostsParam) :
    queryPairs (findHostsQuery p) = some (findHostsPairs p) := by
  rw [findHostsQuery_eq, queryPairs_joinPairs]

/-! ## The query string of `FindHosts` -/

/-- C1: for every `FindHostsParam`, the query string built by `FindHosts` reads back as a
list of key-value pairs in which the pairs with key `role` are exactly `len(Roles)` many
and carry, left to right, the elements of `Roles` in their order (duplicates kept), and
likewise the pairs with key `status` for `Statuses`. -/
theorem findHosts_list_fields (p : FindHostsParam) :
    ∃ ps, queryPairs (findHostsQuery p) = some ps ∧
      valuesOf (lit "role") ps = p.Roles ∧
      (ps.filter (fun q => q.1 = lit "role")).length = p.Roles.length ∧
      valuesOf (lit "status") ps = p.Statuses ∧
      (ps.filter (fun q => q.1 = lit "status")).length = p.Statuses.length := by
  refine ⟨findHostsPairs p, queryPairs_findHostsQuery p, ?_⟩
  have hr : valuesOf (lit "role") (findHostsPairs p) = p.Roles := by
    by_cases hs : p.Service = [] <;> by_cases hn : p.Name = [] <;>
      simp [valuesOf, findHostsPairs, hs, hn, List.filter_append, List.filter_map,
        Function.comp_def, lit_service, lit_role, lit_name, lit_status]
  have hst : valuesOf (lit "status") (findHostsPairs p) = p.Statuses := by
    by_cases hs : p.Service = [] <;> by_cases hn : p.Name = [] <;>
      simp [valuesOf, findHostsPairs, hs, hn, List.filter_append, List.filter_map,
        Function.comp_def, lit_service, lit_role, lit_name, lit_status]
  refine ⟨hr, ?_, hst, ?_⟩
  · have := congrArg List.length hr
    simpa [valuesOf] using this
  · have := congrArg List.length hst
    simpa [valuesOf] using this

/-- C2: for every `FindHostsParam`, the query string built by `FindHosts` reads back as a
list of pairs in which the values under `service` are `[Service]` when `Service` is not
empty and none otherwise, the values under `name` are `[Name]` when `Name` is not empty
and none otherwise, and every key is one of `service`, `role`, `name`, `status`. -/
theorem findHosts_scalar_fields (p : FindHostsParam) :
    ∃ ps, queryPairs (findHostsQuery p) = some ps ∧
      valuesOf (lit "service") ps = (if p.Service = [] then [] else [p.Service]) ∧
      valuesOf (lit "name") ps = (if p.Name = [] then [] else [p.Name]) ∧
      ∀ q ∈ ps, q.1 = lit "service" ∨ q.1 = lit "role" ∨ q.1 = lit "name" ∨
        q.1 = lit "status" := by
  refine ⟨findHostsPairs p, queryPairs_findHostsQuery p, ?_, ?_, ?_⟩
  · by_cases hs : p.Service = [] <;> by_cases hn : p.Name = [] <;>
      simp [valuesOf, findHostsPairs, hs, hn, List.filter_append, List.filter_map,
        Function.comp_def, lit_service, lit_role, lit_name, lit_status]
  · by_cases hs : p.Service = [] <;> by_cases hn : p.Name = [] <;>
      simp [valuesOf, findHostsPairs, hs, hn, List.filter_append, List.filter_map,
        Function.comp_def, lit_service, lit_role, lit_name, lit_status]
  · intro q hq
    simp only [findHostsPairs, List.mem_append, List.mem_map] at hq
    rcases hq with ((hq | ⟨r, -, rfl⟩) | hq) | ⟨r, -, rfl⟩
    · split at hq
      · simp only [List.mem_singleton] at hq
        subst hq
        exact Or.inr (Or.inr (Or.inl rfl))
      · simp at hq
    · exact Or.inr (Or.inl rfl)
    · split at hq
      · simp only [List.mem_singleton] at hq
        subst hq
        exact Or.inl rfl
      · simp at hq
    · exact Or.inr (Or.inr (Or.inr rfl))

/-- C3: for every `FindHostsParam` with no populated field (`Service` and `Name` empty,
`Roles` and `Statuses` empty or nil), the query string built by `FindHosts` is the empty
string. -/
theorem findHosts_empty_query (p : FindHostsParam) (hs : p.Service = []) (hn : p.Name = [])
    (hr : p.Roles = []) (hst : p.Statuses = []) : findHostsQuery p = [] := by
  obtain ⟨service, roles, name, statuses⟩ := p
  simp only at hs hn hr hst
  subst hs hn hr hst
  decide

/-- Witness of C3 at the all-empty parameter. -/
theorem findHosts_empty_query_witness :
    findHostsQuery ⟨[], [], [], []⟩ = [] :=
  findHosts_empty_query ⟨[], [], [], []⟩ rfl rfl rfl rfl

/-! ## Status codes -/

/-- C4: when the request is built and the collaborator answers, without error, with a
response whose status code is not 200, then whatever the body of the response and
whatever the JSON decoders, `FindHost` and `FindHosts` return a nil result with the error
"status code is not 200", and `RetireHost` returns that error: the body is never read. -/
theorem non200_find_retire (lib : Lib) (c : Client) (resp : Response)
    (hcode : resp.StatusCode ≠ 200) :
    (∀ id req, lib.NewRequest (lit "GET") (c.urlFor (lit "/api/v0/hosts/" ++ id)) = .ok req →
        c.Request req = .ok resp → FindHost lib c id = (none, some statusNot200)) ∧
    (∀ param req,
        lib.NewRequest (lit "GET")
          (c.urlFor (lit "/api/v0/hosts.json") ++ lit "?" ++ findHostsQuery param) = .ok req →
        c.Request req = .ok resp → FindHosts lib c param = (none, some statusNot200)) ∧
    (∀ id, c.PostJSON (lit "/api/v0/hosts/" ++ id ++ lit "/retire")
          (Payload.text (lit "\x7b\x7d")) = .ok resp →
        RetireHost c id = some statusNot200) := by
  refine ⟨?_, ?_, ?_⟩
  · intro id req hreq hresp
    simp only [FindHost, hreq, hresp, hcode, ne_eq, not_false_eq_true, if_true, statusNot200]
  · intro param req hreq hresp
    simp only [findHostsQuery] at hreq
    simp only [FindHosts, hreq, hresp, hcode, ne_eq, not_false_eq_true, if_true, statusNot200]
  · intro id hresp
    simp only [RetireHost, hresp, hcode, ne_eq, not_false_eq_true, if_true, statusNot200]

/-- Witness of C4: a 404 response carrying a well-formed host envelope. -/
theorem non200_find_retire_witness :
    FindHost sampleLib
        (answering ⟨404, .ok (.json (.obj [(lit "host", .obj [])]))⟩) (lit "abc")
      = (none, some statusNot200) ∧
    FindHosts sampleLib
        (answering ⟨404, .ok (.json (.obj [(lit "host", .obj [])]))⟩) ⟨[], [lit "db"], [], []⟩
      = (none, some statusNot200) ∧
    RetireHost (answering ⟨404, .ok (.json (.obj [(lit "host", .obj [])]))⟩) (lit "abc")
      = some statusNot200 :=
  ⟨(non200_find_retire sampleLib
      (answering ⟨404, .ok (.json (.obj [(lit "host", .obj [])]))⟩)
      ⟨404, .ok (.json (.obj [(lit "host", .obj [])]))⟩ (by decide)).1 (lit "abc") _ rfl rfl,
   (non200_find_retire sampleLib
      (answering ⟨404, .ok (.json (.obj [(lit "host", .obj [])]))⟩)
      ⟨404, .ok (.json (.obj [(lit "host", .obj [])]))⟩ (by decide)).2.1
        ⟨[], [lit "db"], [], []⟩ _ rfl rfl,
   (non200_find_retire sampleLib
      (answering ⟨404, .ok (.json (.obj [(lit "host", .obj [])]))⟩)
      ⟨404, .ok (.json (.obj [(lit "host", .obj [])]))⟩ (by decide)).2.2 (lit "abc") rfl⟩

/-- C5, evaluated: `PostJSON` / `PutJSON` answer, without error, with status 500 and the
body `{"id":"abc"}`; `CreateHost` and `UpdateHost` return the ID `abc` with a nil error
and `UpdateHostStatus` returns a nil error. -/
theorem create_update_ignore_status :
    CreateHost sampleLib
        (answering ⟨500, .ok (.json (.obj [(lit "id", .str (lit "abc"))]))⟩) zeroParam
      = (lit "abc", none) ∧
    UpdateHost sampleLib
        (answering ⟨500, .ok (.json (.obj [(lit "id", .str (lit "abc"))]))⟩) (lit "h1") zeroParam
      = (lit "abc", none) ∧
    UpdateHostStatus
        (answering ⟨500, .ok (.json (.obj [(lit "id", .str (lit "abc"))]))⟩) (lit "h1")
        (lit "working")
      = none := by
  refine ⟨?_, ?_, ?_⟩ <;> decide

/-! ## Decoding the response envelope -/

theorem decodeMembers_no_match {T : Type} (fold : GoString → GoString) (name : GoString)
    (store : JSON → T → T × Option GoError) (members : List (GoString × JSON))
    (st : T × Option GoError)
    (h : ∀ m ∈ members, matchesField fold name m.1 = false) :
    decodeMembers fold name store members st = st := by
  induction members generalizing st with
  | nil => rfl
  | cons m members ih =>
    obtain ⟨k, v⟩ := m
    obtain ⟨data, saved⟩ := st
    have hk : matchesField fold name k = false := h (k, v) (List.mem_cons_self _ _)
    simp only [decodeMembers, hk, Bool.false_eq_true, if_false]
    exact ih _ (fun m hm => h m (List.mem_cons_of_mem _ hm))

/-- C6, refuted: the response has status 200 and the body `{}`, valid JSON without any
field; `FindHost` returns a nil host with a nil error, `FindHosts` a nil list with a nil
error, `CreateHost` and `UpdateHost` the empty ID with a nil error. -/
theorem missing_field_no_error :
    FindHost sampleLib (answering ⟨200, .ok (.json (.obj []))⟩) (lit "abc") = (none, none) ∧
    FindHosts sampleLib (answering ⟨200, .ok (.json (.obj []))⟩) ⟨[], [], [], []⟩
      = (none, none) ∧
    CreateHost sampleLib (answering ⟨200, .ok (.json (.obj []))⟩) zeroParam = ([], none) ∧
    UpdateHost sampleLib (answering ⟨200, .ok (.json (.obj []))⟩) (lit "abc") zeroParam
      = ([], none) := by
  refine ⟨?_, ?_, ?_, ?_⟩ <;> rfl

/-- C6, amended: for every response whose body is a JSON object in which no key selects
the payload field of the envelope (no key equal to the field name or with the same case
folding), the operation returns the zero value with a nil error: `FindHost` (on status
200) a nil host, `FindHosts` (on status 200) a nil list, `CreateHost` and `UpdateHost`
the empty ID. -/
theorem missing_field_zero_value (lib : Lib) (c : Client) (resp : Response)
    (members : List (GoString × JSON))
    (hbody : resp.Body = .ok (.json (.obj members))) :
    (∀ id req, resp.StatusCode = 200 →
        (∀ m ∈ members, matchesField lib.foldName (lit "host") m.1 = false) →
        lib.NewRequest (lit "GET") (c.urlFor (lit "/api/v0/hosts/" ++ id)) = .ok req →
        c.Request req = .ok resp → FindHost lib c id = (none, none)) ∧
    (∀ param req, resp.StatusCode = 200 →
        (∀ m ∈ members, matchesField lib.foldName (lit "hosts") m.1 = false) →
        lib.NewRequest (lit "GET")
          (c.urlFor (lit "/api/v0/hosts.json") ++ lit "?" ++ findHostsQuery param) = .ok req →
        c.Request req = .ok resp → FindHosts lib c param = (none, none)) ∧
    (∀ param, (∀ m ∈ members, matchesField lib.foldName (lit "id") m.1 = false) →
        c.PostJSON (lit "/api/v0/hosts") (Payload.hostParam param) = .ok resp →
        CreateHost lib c param = ([], none)) ∧
    (∀ hostID param, (∀ m ∈ members, matchesField lib.foldName (lit "id") m.1 = false) →
        c.PutJSON (lit "/api/v0/hosts/" ++ hostID) (Payload.hostParam param) = .ok resp →
        UpdateHost lib c hostID param = ([], none)) := by
  refine ⟨?_, ?_, ?_, ?_⟩
  · intro id req hcode hkeys hreq hresp
    simp [FindHost, hreq, hresp, hcode, hbody, Unmarshal, unmarshalValue,
      decodeMembers_no_match _ _ _ _ _ hkeys]
  · intro param req hcode hkeys hreq hresp
    simp only [findHostsQuery, List.append_assoc] at hreq
    simp [FindHosts, hreq, hresp, hcode, hbody, Unmarshal, unmarshalValue,
      decodeMembers_no_match _ _ _ _ _ hkeys]
  · intro param hkeys hresp
    simp [CreateHost, hresp, hbody, Unmarshal, unmarshalValue,
      decodeMembers_no_match _ _ _ _ _ hkeys]
  · intro hostID param hkeys hresp
    simp [UpdateHost, hresp, hbody, Unmarshal, unmarshalValue,
      decodeMembers_no_match _ _ _ _ _ hkeys]

/-- Witness of the amended C6: status 200 with the body `{"name":"x"}`. -/
theorem missing_field_zero_value_witness :
    FindHost sampleLib
        (answering ⟨200, .ok (.json (.obj [(lit "name", .str (lit "x"))]))⟩) (lit "abc")
      = (none, none) ∧
    CreateHost sampleLib
        (answering ⟨200, .ok (.json (.obj [(lit "name", .str (lit "x"))]))⟩) zeroParam
      = ([], none) :=
  ⟨(missing_field_zero_value sampleLib
      (answering ⟨200, .ok (.json (.obj [(lit "name", .str (lit "x"))]))⟩)
      ⟨200, .ok (.json (.obj [(lit "name", .str (lit "x"))]))⟩ _ rfl).1 (lit "abc") _ rfl
      (by decide) rfl rfl,
   (missing_field_zero_value sampleLib
      (answering ⟨200, .ok (.json (.obj [(lit "name", .str (lit "x"))]))⟩)
      ⟨200, .ok (.json (.obj [(lit "name", .str (lit "x"))]))⟩ _ rfl).2.2.1 zeroParam
      (by decide) rfl⟩

/-- C7: for every response whose body is not well-formed JSON, `json.Unmarshal` failing
with the syntax error `e`: `FindHost` and `FindHosts` (on status 200) return a nil result
with the error `e`, `CreateHost` and `UpdateHost` return the empty string with the error
`e`; the error is the decoder's, unchanged, and nothing else is returned. -/
theorem malformed_body_error (lib : Lib) (c : Client) (resp : Response) (e : GoError)
    (hbody : resp.Body = .ok (.malformed e)) :
    (∀ id req, resp.StatusCode = 200 →
        lib.NewRequest (lit "GET") (c.urlFor (lit "/api/v0/hosts/" ++ id)) = .ok req →
        c.Request req = .ok resp → FindHost lib c id = (none, some e)) ∧
    (∀ param req, resp.StatusCode = 200 →
        lib.NewRequest (lit "GET")
          (c.urlFor (lit "/api/v0/hosts.json") ++ lit "?" ++ findHostsQuery param) = .ok req →
        c.Request req = .ok resp → FindHosts lib c param = (none, some e)) ∧
    (∀ param, c.PostJSON (lit "/api/v0/hosts") (Payload.hostParam param) = .ok resp →
        CreateHost lib c param = ([], some e)) ∧
    (∀ hostID param,
        c.PutJSON (lit "/api/v0/hosts/" ++ hostID) (Payload.hostParam param) = .ok resp →
        UpdateHost lib c hostID param = ([], some e)) := by
  refine ⟨?_, ?_, ?_, ?_⟩
  · intro id req hcode hreq hresp
    simp [FindHost, hreq, hresp, hcode, hbody, Unmarshal]
  · intro param req hcode hreq hresp
    simp only [findHostsQuery, List.append_assoc] at hreq
    simp [FindHosts, hreq, hresp, hcode, hbody, Unmarshal]
  · intro param hresp
    simp [CreateHost, hresp, hbody, Unmarshal]
  · intro hostID param hresp
    simp [UpdateHost, hresp, hbody, Unmarshal]

/-- Witness of C7: status 200 with a body that the JSON scanner rejects. -/
theorem malformed_body_error_witness :
    FindHost sampleLib (answering ⟨200, .ok (.malformed (.other 7))⟩) (lit "abc")
      = (none, some (.other 7)) ∧
    FindHosts sampleLib (answering ⟨200, .ok (.malformed (.other 7))⟩) ⟨[], [], [], []⟩
      = (none, some (.other 7)) ∧
    CreateHost sampleLib (answering ⟨200, .ok (.malformed (.other 7))⟩) zeroParam
      = ([], some (.other 7)) ∧
    UpdateHost sampleLib (answering ⟨200, .ok (.malformed (.other 7))⟩) (lit "abc") zeroParam
      = ([], some (.other 7)) :=
  ⟨(malformed_body_error sampleLib (answering ⟨200, .ok (.malformed (.other 7))⟩)
      ⟨200, .ok (.malformed (.other 7))⟩ (.other 7) rfl).1 (lit "abc") _ rfl rfl rfl,
   (malformed_body_error sampleLib (answering ⟨200, .ok (.malformed (.other 7))⟩)
      ⟨200, .ok (.malformed (.other 7))⟩ (.other 7) rfl).2.1 ⟨[], [], [], []⟩ _ rfl rfl rfl,
   (malformed_body_error sampleLib (answering ⟨200, .ok (.malformed (.other 7))⟩)
      ⟨200, .ok (.malformed (.other 7))⟩ (.other 7) rfl).2.2.1 zeroParam rfl,
   (malformed_body_error sampleLib (answering ⟨200, .ok (.malformed (.other 7))⟩)
      ⟨200, .ok (.malformed (.other 7))⟩ (.other 7) rfl).2.2.2 (lit "abc") zeroParam rfl⟩

/-! ## `GetRoleFullnames` -/

theorem goAppendAll_goAppendAll {α : Type} (s : Option (List α)) (xs ys : List α) :
    goAppendAll (goAppendAll s xs) ys = goAppendAll s (xs ++ ys) := by
  cases xs with
  | nil => rfl
  | cons x xs =>
    cases ys with
    | nil => simp [goAppendAll]
    | cons y ys => simp [goAppendAll]

theorem foldl_goAppend {α β : Type} (f : β → α) (roles : List β) (s : Option (List α)) :
    roles.foldl (fun acc r => goAppend acc (f r)) s = goAppendAll s (roles.map f) := by
  induction roles generalizing s with
  | nil => rfl
  | cons r roles ih =>
    rw [List.foldl_cons, ih]
    cases s with
    | none => cases roles <;> simp [goAppend, goAppendAll]
    | some l => cases roles <;> simp [goAppend, goAppendAll]

theorem stringsJoin_pair (a b sep : GoString) : stringsJoin [a, b] sep = a ++ sep ++ b := by
  simp [stringsJoin, List.intercalate, List.intersperse]

theorem foldl_entries (entries : Roles) (s : Option (List GoString)) :
    entries.foldl
      (fun fullnames entry =>
        entry.2.foldl
          (fun fullnames role => goAppend fullnames (stringsJoin [entry.1, role] (lit ":")))
          fullnames) s
      = goAppendAll s (entries.flatMap fullnamesOf) := by
  induction entries generalizing s with
  | nil => rfl
  | cons e entries ih =>
    rw [List.foldl_cons, ih, foldl_goAppend, List.flatMap_cons, goAppendAll_goAppendAll]
    simp only [fullnamesOf, stringsJoin_pair]

theorem GetRoleFullnames_eq (h : Host) :
    GetRoleFullnames h = goAppendAll none (h.Roles.flatMap fullnamesOf) := by
  unfold GetRoleFullnames
  split
  · rename_i hlen
    have : h.Roles = [] := List.length_eq_zero.mp (by omega)
    rw [this]
    rfl
  · exact foldl_entries h.Roles none

theorem getD_goAppendAll_none {α : Type} (xs : List α) :
    (goAppendAll none xs).getD [] = xs := by
  cases xs <;> simp [goAppendAll]

/-- C9: for every `Host`, `GetRoleFullnames` returns nil when `Roles` is empty, and nil
when every role list is empty; in every case the elements returned are, as a multiset,
exactly the names `service:role` for `service` a key of `Roles` and `role` an element of
its list, with multiplicity; their number is the sum of the lengths of the role lists;
the names of each service appear among them in the order of its role list; and the
multiset, hence the result up to order, does not depend on the order in which the
entries of the map are visited. -/
theorem getRoleFullnames_spec (h : Host) :
    (h.Roles = [] → GetRoleFullnames h = none) ∧
    ((∀ e ∈ h.Roles, e.2 = []) → GetRoleFullnames h = none) ∧
    (((GetRoleFullnames h).getD [] : List GoString) : Multiset GoString)
      = (h.Roles : Multiset (GoString × List GoString)).bind
          (fun e => ((fullnamesOf e : List GoString) : Multiset GoString)) ∧
    ((GetRoleFullnames h).getD []).length = (h.Roles.map (fun e => e.2.length)).sum ∧
    (∀ e ∈ h.Roles, (fullnamesOf e).Sublist ((GetRoleFullnames h).getD [])) ∧
    (∀ h2 : Host, h2.Roles.Perm h.Roles →
      ((GetRoleFullnames h2).getD []).Perm ((GetRoleFullnames h).getD [])) := by
  have hlist : ∀ g : Host, (GetRoleFullnames g).getD [] = g.Roles.flatMap fullnamesOf :=
    fun g => by rw [GetRoleFullnames_eq, getD_goAppendAll_none]
  refine ⟨?_, ?_, ?_, ?_, ?_, ?_⟩
  · intro hr
    rw [GetRoleFullnames_eq, hr]
    rfl
  · intro hall
    have hnil : h.Roles.flatMap fullnamesOf = [] := by
      rw [List.flatMap, List.flatten_eq_nil_iff]
      intro l hl
      obtain ⟨e, he, rfl⟩ := List.mem_map.mp hl
      simp [fullnamesOf, hall e he]
    rw [GetRoleFullnames_eq, hnil]
    rfl
  · rw [hlist, Multiset.coe_bind]
  · rw [hlist, List.length_flatMap]
    congr 1
    apply List.map_congr_left
    intro e _
    simp [fullnamesOf]
  · intro e he
    rw [hlist, List.flatMap]
    exact List.sublist_flatten_of_mem (List.mem_map_of_mem _ he)
  · intro h2 hperm
    rw [hlist, hlist]
    exact hperm.flatMap_right _

/-- Witness of C9: a host without roles, and a host with the services `app` (roles `web`,
`db`) and `ops` (no role). -/
theorem getRoleFullnames_spec_witness :
    GetRoleFullnames zeroHost = none ∧
    ((GetRoleFullnames
        { zeroHost with Roles := [(lit "app", [lit "web", lit "db"]), (lit "ops", [])] }).getD
      []).length = 2 ∧
    (fullnamesOf (lit "app", [lit "web", lit "db"])).Sublist
      ((GetRoleFullnames
        { zeroHost with Roles := [(lit "app", [lit "web", lit "db"]), (lit "ops", [])] }).getD
      []) :=
  ⟨(getRoleFullnames_spec zeroHost).1 rfl,
   (getRoleFullnames_spec
      { zeroHost with Roles := [(lit "app", [lit "web", lit "db"]), (lit "ops", [])] }).2.2.2.1,
   (getRoleFullnames_spec
      { zeroHost with Roles := [(lit "app", [lit "web", lit "db"]), (lit "ops", [])] }).2.2.2.2.1
      (lit "app", [lit "web", lit "db"]) (List.mem_cons_self _ _)⟩

/-! ## `IPAddresses` -/

theorem mapGet_mapPut (m : List (GoString × GoString)) (k v k2 : GoString) :
    mapGet (mapPut m k v) k2 = if k = k2 then some v else mapGet m k2 := by
  induction m with
  | nil => simp [mapPut, mapGet]
  | cons e m ih =>
    obtain ⟨k1, w⟩ := e
    by_cases h1 : k1 = k
    · subst h1
      by_cases h2 : k1 = k2 <;> simp [mapPut, mapGet, h2]
    · by_cases h2 : k1 = k2
      · subst h2
        have h3 : ¬ k = k1 := fun h => h1 h.symm
        simp [mapPut, mapGet, h1, h3]
      · simp [mapPut, mapGet, h1, h2, ih]

theorem keys_mapPut (m : List (GoString × GoString)) (k v : GoString) :
    (mapPut m k v).map Prod.fst = if k ∈ m.map Prod.fst then m.map Prod.fst
      else m.map Prod.fst ++ [k] := by
  induction m with
  | nil => simp [mapPut]
  | cons e m ih =>
    obtain ⟨k1, w⟩ := e
    by_cases h1 : k1 = k
    · subst h1
      simp [mapPut]
    · have h3 : ¬ k = k1 := fun h => h1 h.symm
      by_cases h2 : k ∈ m.map Prod.fst
      · simp only [mapPut, h1, if_false, List.map_cons, ih, h2, if_true, List.mem_cons, or_true]
      · simp only [mapPut, h1, if_false, List.map_cons, ih, h2, List.mem_cons, h3, or_self,
          List.cons_append]

theorem nodup_keys_mapPut (m : List (GoString × GoString)) (k v : GoString)
    (h : (m.map Prod.fst).Nodup) : ((mapPut m k v).map Prod.fst).Nodup := by
  rw [keys_mapPut]
  split
  · exact h
  · rename_i hk
    exact List.Nodup.append h (List.nodup_singleton k) (by simpa using hk)

theorem mapGet_eq_none (m : List (GoString × GoString)) (k : GoString) :
    mapGet m k = none ↔ k ∉ m.map Prod.fst := by
  induction m with
  | nil => simp [mapGet]
  | cons e m ih =>
    obtain ⟨k1, w⟩ := e
    by_cases h1 : k1 = k
    · simp [mapGet, h1]
    · have h3 : ¬ k = k1 := fun h => h1 h.symm
      simp [mapGet, h1, h3, ih]

theorem foldl_mapPut_get (ifaces : List Interface) (m : List (GoString × GoString))
    (name : GoString) :
    mapGet (ifaces.foldl (fun acc iface => mapPut acc iface.Name iface.IPAddress) m) name
      = (lastAddress ifaces name).or (mapGet m name) := by
  induction ifaces generalizing m with
  | nil => simp [lastAddress]
  | cons x ifaces ih =>
    rw [List.foldl_cons, ih, mapGet_mapPut]
    simp only [lastAddress, List.reverse_cons, List.find?_append, List.find?_cons,
      List.find?_nil, Option.or_none]
    cases hfind : List.find? (fun i => decide (i.Name = name)) ifaces.reverse with
    | some i => simp
    | none =>
      by_cases hx : x.Name = name <;> simp [hx]

theorem foldl_mapPut_nodup (ifaces : List Interface) (m : List (GoString × GoString))
    (h : (m.map Prod.fst).Nodup) :
    ((ifaces.foldl (fun acc iface => mapPut acc iface.Name iface.IPAddress) m).map
      Prod.fst).Nodup := by
  induction ifaces generalizing m with
  | nil => exact h
  | cons x ifaces ih =>
    rw [List.foldl_cons]
    exact ih _ (nodup_keys_mapPut m _ _ h)

theorem lastAddress_eq_none (ifaces : List Interface) (name : GoString) :
    lastAddress ifaces name = none ↔ ∀ i ∈ ifaces, i.Name ≠ name := by
  simp [lastAddress]

/-- C10: for every `Host`, `IPAddresses` leaves the host as it is; it returns nil when
`Interfaces` is empty; otherwise it returns a map (with pairwise distinct keys) whose
keys are exactly the `Name` values occurring in `Interfaces`, and which maps every such
name to the `IPAddress` of the last interface of the list with that name. -/
theorem ipAddresses_spec (h : Host) :
    (IPAddresses h).1 = h ∧
    (h.Interfaces = [] → (IPAddresses h).2 = none) ∧
    (h.Interfaces ≠ [] → ∃ m, (IPAddresses h).2 = some m ∧
      (m.map Prod.fst).Nodup ∧
      (∀ name, name ∈ m.map Prod.fst ↔ ∃ i ∈ h.Interfaces, i.Name = name) ∧
      (∀ name, mapGet m name = lastAddress h.Interfaces name)) := by
  refine ⟨?_, ?_, ?_⟩
  · unfold IPAddresses
    split <;> rfl
  · intro hnil
    simp [IPAddresses, hnil]
  · intro hne
    have hlen : ¬ h.Interfaces.length < 1 := by
      have := List.length_pos.mpr hne
      omega
    have hget : ∀ name,
        mapGet (h.Interfaces.foldl (fun acc iface => mapPut acc iface.Name iface.IPAddress) [])
          name = lastAddress h.Interfaces name := by
      intro name
      rw [foldl_mapPut_get]
      simp [mapGet]
    refine ⟨_, by simp only [IPAddresses, hlen, if_false], ?_, ?_, hget⟩
    · exact foldl_mapPut_nodup _ _ (by simp)
    · intro name
      constructor
      · intro hmem
        by_contra hno
        have hnone : lastAddress h.Interfaces name = none :=
          (lastAddress_eq_none _ _).mpr (fun i hi hin => hno ⟨i, hi, hin⟩)
        rw [← hget] at hnone
        exact (mapGet_eq_none _ _).mp hnone hmem
      · rintro ⟨i, hi, hin⟩
        by_contra hmem
        have hnone := (mapGet_eq_none _ _).mpr hmem
        rw [hget] at hnone
        exact (lastAddress_eq_none _ _).mp hnone i hi hin

/-- Witness of C10: a host without interfaces, and a host whose interfaces are `eth0`
(10.0.0.1), `lo` (127.0.0.1) and `eth0` again (10.0.0.2). -/
theorem ipAddresses_spec_witness :
    (IPAddresses zeroHost).2 = none ∧
    ∃ m, (IPAddresses
        { zeroHost with Interfaces :=
            [⟨lit "eth0", lit "10.0.0.1", []⟩, ⟨lit "lo", lit "127.0.0.1", []⟩,
             ⟨lit "eth0", lit "10.0.0.2", []⟩] }).2 = some m ∧
      (m.map Prod.fst).Nodup ∧
      (∀ name, name ∈ m.map Prod.fst ↔
        ∃ i ∈ [(⟨lit "eth0", lit "10.0.0.1", []⟩ : Interface), ⟨lit "lo", lit "127.0.0.1", []⟩,
               ⟨lit "eth0", lit "10.0.0.2", []⟩], i.Name = name) ∧
      (∀ name, mapGet m name =
        lastAddress [(⟨lit "eth0", lit "10.0.0.1", []⟩ : Interface),
          ⟨lit "lo", lit "127.0.0.1", []⟩, ⟨lit "eth0", lit "10.0.0.2", []⟩] name) :=
  ⟨(ipAddresses_spec zeroHost).2.1 rfl,
   (ipAddresses_spec
      { zeroHost with Interfaces :=
          [⟨lit "eth0", lit "10.0.0.1", []⟩, ⟨lit "lo", lit "127.0.0.1", []⟩,
           ⟨lit "eth0", lit "10.0.0.2", []⟩] }).2.2 (by simp)⟩

end Mackerel
